import Mathlib

/-!
The component googleSheetsList: a shallow embedding of its state handling.

The source is `force-app/main/default/lwc/googleSheetsList/googleSheetsList.js`,
one Lightning web component class.  Its fields become the record `Component`,
each handler becomes a function from a component (and the answers of the outside
world it consumes: a confirmation dialog, the outcome of a remote call) to the
component afterwards together with the list of effects it issued, in order.

JavaScript values are the JSON-like values the component handles; objects are
association lists in own-property order.
-/

namespace GoogleSheetsList

/-! ## JavaScript values and objects -/

/-- The JavaScript values that occur in rows, drafts and configuration; `inherited key`
is the function or object that `Object.prototype` holds under `key`, which a property
read finds on a plain object that has no own property of that name. -/
inductive Val where
  | undefined
  | null
  | bool (b : Bool)
  | num (n : Int)
  | str (s : String)
  | inherited (key : String)
  deriving DecidableEq, Repr

/-- ToBoolean: `undefined`, `null`, `false`, `0` and `''` are falsy; functions and
objects are truthy. -/
def Val.truthy : Val → Bool
  | .undefined => false
  | .null => false
  | .bool b => b
  | .num n => n != 0
  | .str s => s != ""
  | .inherited _ => true

/-- The property names of `Object.prototype`, the prototype of every row and draft. -/
def objectPrototypeKeys : List String :=
  ["constructor", "__defineGetter__", "__defineSetter__", "hasOwnProperty",
   "__lookupGetter__", "__lookupSetter__", "isPrototypeOf", "propertyIsEnumerable",
   "toString", "valueOf", "__proto__", "toLocaleString"]

/-- What a property read finds past the own properties: the member of `Object.prototype`
under the key, or `undefined`. -/
def inheritedValue (k : String) : Val :=
  if k ∈ objectPrototypeKeys then .inherited k else .undefined

/-- The value is a string. -/
def Val.isText : Val → Bool
  | .str _ => true
  | _ => false

/-- The expression `a || b` on values. -/
def Val.or (a b : Val) : Val := if a.truthy then a else b

/-- A plain object: its own enumerable properties in `Object.keys` order. -/
abbrev Obj := List (String × Val)

namespace Obj

/-- The list `Object.keys(o)`. -/
def keys (o : Obj) : List String := o.map Prod.fst

/-- An object has each key once. -/
def WF (o : Obj) : Prop := o.keys.Nodup

instance (o : Obj) : Decidable o.WF := by unfold WF; infer_instance

/-- Own-property test, `Object.hasOwn(o, k)`. -/
def has (o : Obj) (k : String) : Bool := o.any (fun kv => kv.1 == k)

/-- Property read `o[k]`: the own property, else what the prototype chain gives. -/
def get : Obj → String → Val
  | [], k => inheritedValue k
  | (k', v) :: rest, k => if k' = k then v else get rest k

/-- Definition of the own property `k` as a spread performs it: an existing key keeps
its place, a new key goes last. -/
def set : Obj → String → Val → Obj
  | [], k, v => [(k, v)]
  | (k', v') :: rest, k, v => if k' = k then (k', v) :: rest else (k', v') :: set rest k v

/-- Property removal, `delete o[k]`. -/
def delete (o : Obj) (k : String) : Obj := o.filter (fun kv => kv.1 != k)

/-- Object spread `{ ...a, ...b }`: the properties of `a`, then those of `b` written over
them. The result is read by key only, so the place JavaScript gives integer-like keys
is not modelled. -/
def spread (a b : Obj) : Obj := b.foldl (fun acc kv => acc.set kv.1 kv.2) a

end Obj

/-- ToString on values, as a template literal applies it; an inherited function is
rendered the way engines render a native function, the inherited object under
`__proto__` as `[object Object]`. -/
def Val.toText : Val → String
  | .undefined => "undefined"
  | .null => "null"
  | .bool true => "true"
  | .bool false => "false"
  | .num n => toString n
  | .str s => s
  | .inherited key =>
    if key = "__proto__" then "[object Object]"
    else "function " ++ (if key = "constructor" then "Object" else key)
      ++ "() \x7b [native code] \x7d"

/-! ## The component -/

/-- A rejection reason or thrown error, with its `message`. -/
structure JSError where
  message : String
  deriving DecidableEq, Repr

/-- One entry of `typeAttributes.rowActions`. -/
structure RowAction where
  label : String
  name : String
  iconName : String
  deriving DecidableEq, Repr

/-- A column descriptor: the two object shapes `processData` builds. -/
inductive Column where
  | dataColumn (label fieldName type : String) (sortable editable required : Bool)
      (placeholder : String)
  | actionColumn (type : String) (rowActions : List RowAction)
  deriving DecidableEq, Repr

/-- The `fieldName` of a descriptor, when it carries one. -/
def Column.fieldName? : Column → Option String
  | .dataColumn _ fieldName _ _ _ _ _ => some fieldName
  | .actionColumn _ _ => none

/-- What a wire adapter or `processData` caller hands over: `{ data, error }`, either
of which may be `undefined`. -/
structure WireResult where
  data : Option (List Obj)
  error : Option JSError
  deriving DecidableEq, Repr

/-- The fields of the class `GoogleSheetsList`; `modifiedRows`, a set that no method reads
or writes, is left out. -/
structure Component where
  showUrlInput : Bool
  defaultSpreadsheetUrl : Val
  defaultSheetName : Val
  data : List Obj
  columns : List Column
  error : Option JSError
  isLoading : Bool
  wiredData : Option WireResult
  showModal : Bool
  currentRecord : Obj
  isNewRecord : Bool
  draftValues : List Obj
  _spreadsheetUrl : Val
  _sheetName : Val
  _showUrlInput : Bool
  deriving DecidableEq, Repr

/-- What a handler does to the outside world. -/
inductive Effect where
  | toast (title message variant : String)
  | confirm (message : String)
  | consoleError (error : JSError)
  | getSheetData (spreadsheetUrl sheetName : Val)
  | updateSheetRow (rowIndex : Val) (rowData : Obj)
  | addSheetRow (rowData : Obj)
  | deleteSheetRow (rowIndex : Val)
  | refreshApex
  deriving DecidableEq, Repr

/-- An effect is a call to the remote store: a read, an update, an add, a delete or a
refresh of the wired row set. -/
def Effect.isRemoteCall : Effect → Bool
  | .getSheetData _ _ => true
  | .updateSheetRow _ _ => true
  | .addSheetRow _ => true
  | .deleteSheetRow _ => true
  | .refreshApex => true
  | _ => false

/-- The instance after its field initialisers have run, in source order: where a field is
declared twice (`showUrlInput`, `_spreadsheetUrl`, `_sheetName`) the later initialiser
is the one that stays. -/
def Component.new : Component where
  showUrlInput := false
  defaultSpreadsheetUrl := .str ""
  defaultSheetName := .str ""
  data := []
  columns := []
  error := none
  isLoading := true
  wiredData := none
  showModal := false
  currentRecord := []
  isNewRecord := false
  draftValues := []
  _spreadsheetUrl := .str ""
  _sheetName := .str "Sheet1"
  _showUrlInput := false

/-- The method `showToast(title, message, variant)`: one toast event dispatched. -/
def showToast (title message variant : String) : Effect := .toast title message variant

/-- The getter `hasUnsavedChanges`. -/
def hasUnsavedChanges (c : Component) : Bool := decide (c.draftValues.length > 0)

/-- The getter `sheetName`. -/
def sheetName (c : Component) : Val := c._sheetName

/-- The setter `sheetName`. -/
def setSheetName (c : Component) (value : Val) : Component :=
  { c with _sheetName := value.or (.str "Sheet1") }

/-- The rendered columns for a non-empty row list: one data column per key of the first
row other than `rowIndex`, then the action column. -/
def buildColumns (first : Obj) : List Column :=
  ((first.keys.filter (fun key => key != "rowIndex")).map (fun key =>
      Column.dataColumn key key "text" true true false "Double click to edit"))
    ++ [Column.actionColumn "action"
          [⟨"Edit", "edit", "utility:edit"⟩, ⟨"Delete", "delete", "utility:delete"⟩]]

/-- The method `processData(result)`. -/
def processData (c : Component) (result : WireResult) : Component × List Effect :=
  let c := { c with isLoading := true }
  match result.data, result.error with
  | some data, _ =>
    let c := match data with
      | first :: _ => { c with columns := buildColumns first }
      | [] => c
    ({ c with data := data, error := none, isLoading := false }, [])
  | none, some error =>
    ({ c with error := some error, data := [], columns := [], isLoading := false },
      [Effect.consoleError error])
  | none, none => ({ c with isLoading := false }, [])

/-- The wire handler `wiredSheetData(result)`. -/
def wiredSheetData (c : Component) (result : WireResult) : Component × List Effect :=
  processData { c with wiredData := some result } result

/-- The method `handleLoadSheet()`, run together with the settlement of the read it
issues: `reply` is what `getSheetData` resolves to (`Except.ok`, the rows or nothing)
or rejects with (`Except.error`). -/
def handleLoadSheet (c : Component) (reply : Except JSError (Option (List Obj))) :
    Component × List Effect :=
  if !c._spreadsheetUrl.truthy then
    (c, [showToast "Error" "Please enter a Google Sheets URL" "error"])
  else
    let c := { c with data := [], columns := [], error := none, draftValues := [] }
    let call := Effect.getSheetData c._spreadsheetUrl c._sheetName
    let (c, effects) := match reply with
      | .ok result => processData c { data := result, error := none }
      | .error error => processData c { data := none, error := some error }
    (c, call :: effects)

/-- The lifecycle hook `connectedCallback()`. -/
def connectedCallback (c : Component) (reply : Except JSError (Option (List Obj))) :
    Component × List Effect :=
  let c := { c with _spreadsheetUrl := c.defaultSpreadsheetUrl.or (.str ""),
                    _sheetName := c.defaultSheetName.or (.str "") }
  if !c.showUrlInput && c._spreadsheetUrl.truthy then handleLoadSheet c reply else (c, [])

/-- The method `handleDiscardChanges()`; `confirmation` is the answer of the dialog. -/
def handleDiscardChanges (c : Component) (confirmation : Bool) : Component × List Effect :=
  if !hasUnsavedChanges c then (c, [])
  else
    let ask := Effect.confirm "Are you sure you want to discard all unsaved changes?"
    if confirmation then
      ({ c with draftValues := [] },
        [ask, showToast "Info" "All changes discarded" "info", Effect.refreshApex])
    else (c, [ask])

/-- One callback of `draftValues.map(async (change) => ...)` in `handleSaveAll`, up to
its `await`: the row is looked up by strict equality of `rowIndex`; when none is found
the callback throws, otherwise it issues the update of the merged row. -/
def saveRequest (data : List Obj) (change : Obj) : Except JSError Effect :=
  let rowIndex := change.get "rowIndex"
  match data.find? (fun row => decide (row.get "rowIndex" = rowIndex)) with
  | none => .error ⟨"Row " ++ rowIndex.toText ++ " not found"⟩
  | some originalRow =>
    let updatedRow := (originalRow.spread change).delete "id"
    .ok (Effect.updateSheetRow rowIndex updatedRow)

/-- The update calls among the started callbacks, in the order they were issued. -/
def sentUpdates (promises : List (Except JSError Effect)) : List Effect :=
  promises.filterMap (fun p => match p with
    | .ok call => some call
    | .error _ => none)

/-- The reasons `Promise.all` can reject with, earliest first: the callbacks that threw
before their `await` are rejected already when `Promise.all` subscribes; the remote
rejections follow, taken in the order the calls were issued. -/
def rejections (updateReply : Val → Obj → Except JSError Unit)
    (promises : List (Except JSError Effect)) : List JSError :=
  promises.filterMap (fun p => match p with
    | .error e => some e
    | .ok _ => none)
  ++ (sentUpdates promises).filterMap (fun call => match call with
    | .updateSheetRow rowIndex rowData =>
      (match updateReply rowIndex rowData with
        | .error e => some e
        | .ok _ => none)
    | _ => none)

/-- The method `handleSaveAll()`, run together with the settlement of the calls it
issues: `updateReply` is the remote store's answer to an update, `refreshReply` the
outcome of `refreshApex`. -/
def handleSaveAll (c : Component) (updateReply : Val → Obj → Except JSError Unit)
    (refreshReply : Except JSError Unit) : Component × List Effect :=
  if !hasUnsavedChanges c then (c, [])
  else
    let promises := c.draftValues.map (saveRequest c.data)
    let sent := sentUpdates promises
    match (rejections updateReply promises).head? with
    | some error =>
      ({ c with isLoading := false },
        sent ++ [showToast "Error" ("Error saving changes: " ++ error.message) "error"])
    | none =>
      let saved := showToast "Success" "All changes saved successfully" "success"
      let c := { c with draftValues := [], isLoading := false }
      match refreshReply with
      | .ok _ => (c, sent ++ [saved, Effect.refreshApex])
      | .error error =>
        (c, sent ++ [saved, Effect.refreshApex,
          showToast "Error" ("Error saving changes: " ++ error.message) "error"])

/-! ## Sorting -/

/-- Insertion of `x` in front of the first element it does not sort after. -/
def insertSorted {α : Type} (cmp : α → α → Int) (x : α) : List α → List α
  | [] => [x]
  | y :: ys => if cmp x y ≤ 0 then x :: y :: ys else y :: insertSorted cmp x ys

/-- The result of `Array.prototype.sort(cmp)`: the sort is stable, so for a consistent
comparator the result is the one a stable insertion sort computes. -/
def sortWith {α : Type} (cmp : α → α → Int) : List α → List α
  | [] => []
  | x :: xs => insertSorted cmp x (sortWith cmp xs)

/-- The operand `a[sortedBy] || ''`. -/
def sortValue (sortedBy : String) (a : Obj) : Val := (a.get sortedBy).or (.str "")

/-- The row's value for the field is text or counts as the empty string: the operand of
the comparison is a string. -/
def isTextual (sortedBy : String) (a : Obj) : Bool :=
  match sortValue sortedBy a with
  | .str _ => true
  | _ => false

/-- The text a row is compared by when its operand is a string; `handleSort` compares
rows by it only when every operand is one. -/
def sortText (sortedBy : String) (a : Obj) : String :=
  match sortValue sortedBy a with
  | .str s => s
  | _ => ""

/-- The comparator `handleSort` passes to `sort`, on rows whose operands are strings;
`localeCompare` is the host's `String.prototype.localeCompare`. -/
def compareRows (localeCompare : String → String → Int) (sortedBy sortDirection : String)
    (a b : Obj) : Int :=
  let valueA := sortText sortedBy a
  let valueB := sortText sortedBy b
  if sortDirection = "asc" then localeCompare valueA valueB else localeCompare valueB valueA

/-- How a call of `handleSort` ends. -/
inductive SortOutcome where
  | returned (c : Component) (effects : List Effect)
  | typeError
  | engineDefined
  deriving DecidableEq, Repr

/-- The method `handleSort(event)` with `event.detail = { fieldName, sortDirection }`.
When every operand `a[sortedBy] || ''` is a string the comparator never throws and the
rows are sorted. Otherwise some operand is a number, `true`, or an inherited function
or object, on which `localeCompare` is missing: with at most one row no comparison is
made; with two or more rows and no string operand the first comparison throws a
`TypeError`; with string and other operands mixed, whether a non-string is ever the
receiver depends on the sequence of comparisons the engine makes. -/
def handleSort (localeCompare : String → String → Int) (c : Component)
    (sortedBy sortDirection : String) : SortOutcome :=
  if c.data.all (isTextual sortedBy) then
    let cloneData := sortWith (compareRows localeCompare sortedBy sortDirection) c.data
    .returned { c with data := cloneData } []
  else if c.data.length ≤ 1 then .returned c []
  else if c.data.any (isTextual sortedBy) then .engineDefined
  else .typeError

/-- What the language requires of `localeCompare`: a consistent comparison, that is a
total preorder on strings read off the sign of the result. -/
structure ConsistentComparator (localeCompare : String → String → Int) : Prop where
  refl : ∀ a, localeCompare a a = 0
  flip : ∀ a b, localeCompare a b < 0 ↔ 0 < localeCompare b a
  trans : ∀ a b c, localeCompare a b ≤ 0 → localeCompare b c ≤ 0 → localeCompare a c ≤ 0

/-- A concrete consistent comparison: code units compared position by position. -/
def compareUnits : List Char → List Char → Int
  | [], [] => 0
  | [], _ :: _ => -1
  | _ :: _, [] => 1
  | x :: xs, y :: ys =>
    if x.toNat < y.toNat then -1 else if y.toNat < x.toNat then 1 else compareUnits xs ys

/-- The ordinal comparison of two strings. -/
def ordinalCompare (a b : String) : Int := compareUnits a.data b.data

/-- Row `r` stands before row `s` in the list. -/
def Precedes (rows : List Obj) (r s : Obj) : Prop := List.Sublist [r, s] rows

instance (rows : List Obj) (r s : Obj) : Decidable (Precedes rows r s) := by
  unfold Precedes; infer_instance

/-- Stated from the spec: the text a row sorts by is its value for the field, a missing
or empty value counting as the empty string. -/
def specSortKey (sortedBy : String) (row : Obj) : String :=
  match row.get sortedBy with
  | .str s => s
  | _ => ""

/-- The effect is an update of the row addressed by `rowIndex`. -/
def Effect.isUpdateOf (rowIndex : Val) : Effect → Bool
  | .updateSheetRow i _ => decide (i = rowIndex)
  | _ => false

/-- The effect is an update of some row. -/
def Effect.isUpdate : Effect → Bool
  | .updateSheetRow _ _ => true
  | _ => false

/-- The effect is a toast of severity `error`. -/
def Effect.isErrorToast : Effect → Bool
  | .toast _ _ variant => decide (variant = "error")
  | _ => false

/-- The effect is a toast of any severity. -/
def Effect.isToast : Effect → Bool
  | .toast _ _ _ => true
  | _ => false

/-! ## Sample inputs -/

/-- Two cached rows, `{ rowIndex: '1', A: 'p', B: 'q' }` and `{ rowIndex: '2', A: 'x', B: 'y' }`. -/
def sampleRows : List Obj :=
  [[("rowIndex", .str "1"), ("A", .str "p"), ("B", .str "q")],
   [("rowIndex", .str "2"), ("A", .str "x"), ("B", .str "y")]]

/-- The draft `{ rowIndex: '2', A: 'a', id: 'row-0' }`. -/
def sampleChange : Obj := [("rowIndex", .str "2"), ("A", .str "a"), ("id", .str "row-0")]

/-- A component showing `sampleRows` with `sampleChange` pending. -/
def sampleComponent : Component :=
  { Component.new with
    data := sampleRows
    draftValues := [sampleChange]
    _spreadsheetUrl := .str "https://docs.google.com/spreadsheets/d/abc"
    isLoading := false }

/-- A component whose columns were computed by an earlier load. -/
def staleComponent : Component :=
  { Component.new with columns := buildColumns [("rowIndex", .str "1"), ("A", .str "p")] }

/-- The cached rows with two drafts for the same row pending: `{ rowIndex: '2', A: 'a' }`
and `{ rowIndex: '2', B: 'b' }`. -/
def twoDraftsComponent : Component :=
  { Component.new with
    data := sampleRows
    draftValues := [[("rowIndex", .str "2"), ("A", .str "a")],
                    [("rowIndex", .str "2"), ("B", .str "b")]]
    isLoading := false }

/-- The row `{ rowIndex: '1', name: '' }`, whose `name` is the empty string. -/
def emptyNameRow : Obj := [("rowIndex", .str "1"), ("name", .str "")]

/-- The row `{ rowIndex: '2' }`, which has no `name`. -/
def missingNameRow : Obj := [("rowIndex", .str "2")]

/-- A component showing `emptyNameRow` and then `missingNameRow`. -/
def emptyNameComponent : Component :=
  { Component.new with data := [emptyNameRow, missingNameRow], isLoading := false }

/-- The cached rows with three drafts for different rows pending, the last for a row
that is not cached: `{ rowIndex: '1', A: 'a' }`, `{ rowIndex: '2', B: 'b' }` and
`{ rowIndex: '9', A: 'z' }`. -/
def distinctDraftsComponent : Component :=
  { Component.new with
    data := sampleRows
    draftValues := [[("rowIndex", .str "1"), ("A", .str "a")],
                    [("rowIndex", .str "2"), ("B", .str "b")],
                    [("rowIndex", .str "9"), ("A", .str "z")]]
    isLoading := false }

/-- Three rows with the `A` values `p`, none and `x`. -/
def mixedRows : List Obj :=
  [[("rowIndex", .str "1"), ("A", .str "p")],
   [("rowIndex", .str "2")],
   [("rowIndex", .str "3"), ("A", .str "x")]]

/-- A component showing `mixedRows`. -/
def mixedComponent : Component :=
  { Component.new with data := mixedRows, isLoading := false }

/-! ## Objects: reads after writes -/

namespace Obj

theorem get_set (o : Obj) (k : String) (v : Val) (k' : String) :
    (o.set k v).get k' = if k = k' then v else o.get k' := by
  induction o with
  | nil => simp [set, get]
  | cons kv rest ih =>
    obtain ⟨k₀, v₀⟩ := kv
    by_cases h : k₀ = k
    · subst h
      by_cases h' : k₀ = k' <;> simp [set, get, h']
    · by_cases h' : k₀ = k'
      · subst h'
        simp [set, get, h, Ne.symm h]
      · simp [set, get, h, h', ih]

theorem has_eq_false_of_not_mem (o : Obj) (k : String) (h : k ∉ o.keys) : o.has k = false := by
  induction o with
  | nil => rfl
  | cons kv rest ih =>
    obtain ⟨k₀, v₀⟩ := kv
    simp only [keys, List.map_cons, List.mem_cons, not_or] at h
    have ih' := ih (by simpa [keys] using h.2)
    simp only [has, List.any_cons, Bool.or_eq_false_iff] at ih' ⊢
    exact ⟨by simpa using Ne.symm h.1, ih'⟩

theorem get_spread (a b : Obj) (hb : b.WF) (k : String) :
    (a.spread b).get k = if b.has k then b.get k else a.get k := by
  induction b generalizing a with
  | nil => simp [spread, has]
  | cons kv rest ih =>
    obtain ⟨k₀, v₀⟩ := kv
    have hnd : k₀ ∉ keys rest ∧ WF rest := by
      simpa [WF, keys] using hb
    have step : spread a ((k₀, v₀) :: rest) = spread (a.set k₀ v₀) rest := by
      simp [spread]
    rw [step, ih _ hnd.2, get_set]
    by_cases h : k₀ = k
    · subst h
      have hrest := has_eq_false_of_not_mem rest k₀ hnd.1
      have hhead : has ((k₀, v₀) :: rest) k₀ = true := by simp [has]
      have hget : get ((k₀, v₀) :: rest) k₀ = v₀ := by simp [get]
      rw [hrest, hhead, hget]
      simp
    · by_cases hr : has rest k = true
      · have hr' : has ((k₀, v₀) :: rest) k = true := by
          simp only [has, List.any_cons, Bool.or_eq_true] at hr ⊢
          exact Or.inr hr
        simp [hr, hr', get, h]
      · have hr0 : has rest k = false := by simpa using hr
        have hr' : has ((k₀, v₀) :: rest) k = false := by
          simp only [has, List.any_cons, Bool.or_eq_false_iff] at hr0 ⊢
          exact ⟨by simpa using h, hr0⟩
        simp [hr0, hr', h]

theorem get_delete (o : Obj) (k k' : String) :
    (o.delete k).get k' = if k' = k then inheritedValue k else o.get k' := by
  induction o with
  | nil =>
    by_cases h : k' = k
    · subst h; simp [delete, get]
    · simp [delete, get, h]
  | cons kv rest ih =>
    obtain ⟨k₀, v₀⟩ := kv
    simp only [delete] at ih
    by_cases h : k₀ = k
    · subst h
      by_cases h' : k' = k₀
      · subst h'
        simpa [delete, get] using ih
      · simpa [delete, get, h', Ne.symm h'] using ih
    · by_cases h' : k' = k
      · subst h'
        simpa [delete, get, h] using ih
      · by_cases h'' : k₀ = k'
        · subst h''
          simp [delete, get, h]
        · simp [delete, List.filter_cons, get, h, h', h'', ih]

theorem has_delete (o : Obj) (k : String) : (o.delete k).has k = false := by
  simp [delete, has]

end Obj

/-! ## Saving drafts -/

theorem hasUnsavedChanges_of_mem (c : Component) (change : Obj) (h : change ∈ c.draftValues) :
    hasUnsavedChanges c = true := by
  unfold hasUnsavedChanges
  cases hd : c.draftValues with
  | nil => rw [hd] at h; cases h
  | cons _ _ => simp

/-- The effects of `handleSaveAll` with drafts pending: the updates issued by the
callbacks, then toasts and at most a refresh. -/
theorem handleSaveAll_effects (c : Component) (updateReply : Val → Obj → Except JSError Unit)
    (refreshReply : Except JSError Unit) (h : hasUnsavedChanges c = true) :
    ∃ tail, (handleSaveAll c updateReply refreshReply).2
        = sentUpdates (c.draftValues.map (saveRequest c.data)) ++ tail
      ∧ (∀ i, tail.filter (Effect.isUpdateOf i) = [])
      ∧ tail.filter Effect.isUpdate = [] := by
  unfold handleSaveAll
  simp only [h, Bool.not_true, Bool.false_eq_true, ↓reduceIte]
  cases (rejections updateReply (c.draftValues.map (saveRequest c.data))).head? with
  | some error =>
    exact ⟨_, rfl, fun i => by simp [showToast, Effect.isUpdateOf],
      by simp [showToast, Effect.isUpdate]⟩
  | none =>
    cases refreshReply with
    | ok _ =>
      exact ⟨_, rfl, fun i => by simp [showToast, Effect.isUpdateOf],
        by simp [showToast, Effect.isUpdate]⟩
    | error e =>
      exact ⟨_, rfl, fun i => by simp [showToast, Effect.isUpdateOf],
        by simp [showToast, Effect.isUpdate]⟩

theorem mem_sentUpdates (data : List Obj) (drafts : List Obj) (change : Obj) (call : Effect)
    (hmem : change ∈ drafts) (hcall : saveRequest data change = .ok call) :
    call ∈ sentUpdates (drafts.map (saveRequest data)) := by
  unfold sentUpdates
  rw [List.mem_filterMap]
  exact ⟨saveRequest data change, List.mem_map.2 ⟨change, hmem, rfl⟩, by rw [hcall]⟩

/-- C1: for a draft change of `draftValues` whose `rowIndex` is that of some cached row,
the update `handleSaveAll` sends for it addresses the change's `rowIndex` and carries
the first matching cached row overwritten by the change's fields with the key `id`
removed: no key `id`, and for every other key the change's value when the change has the
key and the cached row's value otherwise. -/
theorem handleSaveAll_sends_merged_row (c : Component)
    (updateReply : Val → Obj → Except JSError Unit) (refreshReply : Except JSError Unit)
    (change : Obj) (hmem : change ∈ c.draftValues) (hwf : change.WF)
    (hrow : ∃ row ∈ c.data, row.get "rowIndex" = change.get "rowIndex") :
    ∃ originalRow rowData,
      c.data.find? (fun row => decide (row.get "rowIndex" = change.get "rowIndex"))
        = some originalRow
      ∧ saveRequest c.data change
        = .ok (Effect.updateSheetRow (change.get "rowIndex") rowData)
      ∧ Effect.updateSheetRow (change.get "rowIndex") rowData
        ∈ (handleSaveAll c updateReply refreshReply).2
      ∧ rowData = (originalRow.spread change).delete "id"
      ∧ rowData.has "id" = false
      ∧ ∀ k, k ≠ "id" →
          rowData.get k = if change.has k then change.get k else originalRow.get k := by
  cases hfind : c.data.find? (fun row => decide (row.get "rowIndex" = change.get "rowIndex")) with
  | none =>
    obtain ⟨row, hrowmem, hrow⟩ := hrow
    have := List.find?_eq_none.1 hfind row hrowmem
    simp [hrow] at this
  | some originalRow =>
    have hreq : saveRequest c.data change = .ok (Effect.updateSheetRow (change.get "rowIndex")
        ((originalRow.spread change).delete "id")) := by
      simp only [saveRequest, hfind]
    refine ⟨originalRow, (originalRow.spread change).delete "id", rfl, hreq, ?_, rfl,
      Obj.has_delete _ _, ?_⟩
    · obtain ⟨tail, heff, _, _⟩ := handleSaveAll_effects c updateReply refreshReply
        (hasUnsavedChanges_of_mem c change hmem)
      rw [heff]
      exact List.mem_append_left _ (mem_sentUpdates c.data c.draftValues change _ hmem hreq)
    · intro k hk
      rw [Obj.get_delete, if_neg hk, Obj.get_spread _ _ hwf]

/-- Witness for C1: the draft `{ rowIndex: '2', A: 'a', id: 'row-0' }` against the cached
rows `{ rowIndex: '1', A: 'p', B: 'q' }` and `{ rowIndex: '2', A: 'x', B: 'y' }`. -/
theorem handleSaveAll_sends_merged_row_witness :
    sampleChange ∈ sampleComponent.draftValues ∧ sampleChange.WF ∧
    ∃ originalRow rowData,
      sampleComponent.data.find?
          (fun row => decide (row.get "rowIndex" = sampleChange.get "rowIndex"))
        = some originalRow
      ∧ saveRequest sampleComponent.data sampleChange
        = .ok (Effect.updateSheetRow (sampleChange.get "rowIndex") rowData)
      ∧ Effect.updateSheetRow (sampleChange.get "rowIndex") rowData
        ∈ (handleSaveAll sampleComponent (fun _ _ => .ok ()) (.ok ())).2
      ∧ rowData = (originalRow.spread sampleChange).delete "id"
      ∧ rowData.has "id" = false
      ∧ ∀ k, k ≠ "id" →
          rowData.get k = if sampleChange.has k then sampleChange.get k else originalRow.get k :=
  ⟨by decide, by decide,
    handleSaveAll_sends_merged_row sampleComponent (fun _ _ => .ok ()) (.ok ()) sampleChange
      (by decide) (by decide)
      ⟨[("rowIndex", Val.str "2"), ("A", Val.str "x"), ("B", Val.str "y")],
        by decide, by decide⟩⟩

theorem saveRequest_ok (data : List Obj) (change : Obj) (call : Effect)
    (h : saveRequest data change = .ok call) :
    ∃ originalRow : Obj, call = Effect.updateSheetRow (change.get "rowIndex")
      ((originalRow.spread change).delete "id") := by
  unfold saveRequest at h
  cases hfind : data.find? (fun row => decide (row.get "rowIndex" = change.get "rowIndex")) with
  | none => simp [hfind] at h
  | some originalRow =>
    simp only [hfind] at h
    exact ⟨originalRow, by injection h with h; exact h.symm⟩

theorem sentUpdates_cons (p : Except JSError Effect) (ps : List (Except JSError Effect)) :
    sentUpdates (p :: ps) = (match p with
      | .ok call => [call]
      | .error _ => []) ++ sentUpdates ps := by
  cases p <;> simp [sentUpdates, List.filterMap_cons]

/-- The updates sent for a `rowIndex` are no more than the draft entries with it. -/
theorem sentUpdates_le_drafts (data drafts : List Obj) (i : Val) :
    ((sentUpdates (drafts.map (saveRequest data))).filter (Effect.isUpdateOf i)).length
      ≤ (drafts.filter (fun change => decide (change.get "rowIndex" = i))).length := by
  induction drafts with
  | nil => simp [sentUpdates]
  | cons change rest ih =>
    rw [List.map_cons, sentUpdates_cons, List.filter_append, List.length_append]
    cases hreq : saveRequest data change with
    | error e =>
      simp only [List.filter_nil, List.length_nil, Nat.zero_add]
      exact le_trans ih
        (List.Sublist.filter _ (List.sublist_cons_self _ _)).length_le
    | ok call =>
      obtain ⟨originalRow, hcall⟩ := saveRequest_ok data change call hreq
      subst hcall
      by_cases hi : change.get "rowIndex" = i
      · simp only [List.filter_cons, Effect.isUpdateOf, hi, decide_True, ↓reduceIte,
          List.filter_nil, List.length_cons, List.length_nil]
        omega
      · simp only [List.filter_cons, Effect.isUpdateOf, hi, decide_False, Bool.false_eq_true,
          ↓reduceIte, List.filter_nil, List.length_nil]
        omega

theorem filter_key_length_le_one {α : Type} (f : α → Val) (l : List α) (i : Val)
    (h : (l.map f).Nodup) : (l.filter (fun x => decide (f x = i))).length ≤ 1 := by
  induction l with
  | nil => simp
  | cons x rest ih =>
    rw [List.map_cons, List.nodup_cons] at h
    by_cases hx : f x = i
    · have hnone : rest.filter (fun y => decide (f y = i)) = [] := by
        rw [List.filter_eq_nil_iff]
        intro y hy hyi
        exact h.1 (List.mem_map.2 ⟨y, hy, by rw [of_decide_eq_true hyi, hx]⟩)
      simp [List.filter_cons, hx, hnone]
    · simpa [List.filter_cons, hx] using ih h.2

/-- Counterexample to C7: with two drafts pending for row `'2'`, `handleSaveAll` sends
two updates for that row, and neither carries both edits. -/
theorem handleSaveAll_two_updates_same_row :
    ¬ ((handleSaveAll twoDraftsComponent (fun _ _ => .ok ()) (.ok ())).2.filter
          (Effect.isUpdateOf (Val.str "2"))).length ≤ 1
      ∧ (handleSaveAll twoDraftsComponent (fun _ _ => .ok ()) (.ok ())).2.filter
          (Effect.isUpdateOf (Val.str "2"))
        = [Effect.updateSheetRow (Val.str "2")
              [("rowIndex", Val.str "2"), ("A", Val.str "a"), ("B", Val.str "y")],
            Effect.updateSheetRow (Val.str "2")
              [("rowIndex", Val.str "2"), ("A", Val.str "x"), ("B", Val.str "b")]] := by
  constructor
  · decide
  · decide

/-- The updates the callbacks issue, written out: for each draft entry whose row is
cached, in draft order, the update of that row with the entry merged over it. -/
theorem sentUpdates_eq (data drafts : List Obj) :
    sentUpdates (drafts.map (saveRequest data))
      = drafts.filterMap (fun change =>
          (data.find? (fun row => decide (row.get "rowIndex" = change.get "rowIndex"))).map
            (fun originalRow => Effect.updateSheetRow (change.get "rowIndex")
              ((originalRow.spread change).delete "id"))) := by
  induction drafts with
  | nil => rfl
  | cons change rest ih =>
    rw [List.map_cons, sentUpdates_cons, ih, List.filterMap_cons]
    cases hfind : data.find? (fun row => decide (row.get "rowIndex" = change.get "rowIndex")) with
    | none =>
      have hreq : saveRequest data change
          = .error ⟨"Row " ++ (change.get "rowIndex").toText ++ " not found"⟩ := by
        simp only [saveRequest, hfind]
      rw [hreq]
      rfl
    | some originalRow =>
      have hreq : saveRequest data change = .ok (Effect.updateSheetRow (change.get "rowIndex")
          ((originalRow.spread change).delete "id")) := by
        simp only [saveRequest, hfind]
      rw [hreq]
      rfl

theorem filter_isUpdate_sentUpdates (data drafts : List Obj) :
    (sentUpdates (drafts.map (saveRequest data))).filter Effect.isUpdate
      = sentUpdates (drafts.map (saveRequest data)) := by
  rw [List.filter_eq_self]
  intro call hcall
  unfold sentUpdates at hcall
  rw [List.mem_filterMap] at hcall
  obtain ⟨p, hp, hpcall⟩ := hcall
  obtain ⟨change, _, hreq⟩ := List.mem_map.1 hp
  subst hreq
  cases hreq : saveRequest data change with
  | error e => simp [hreq] at hpcall
  | ok sent =>
    simp only [hreq, Option.some.injEq] at hpcall
    subst hpcall
    obtain ⟨originalRow, hsent⟩ := saveRequest_ok data change _ hreq
    rw [hsent]
    rfl

/-- The updates sent for a `rowIndex` are as many as the draft entries with it whose row
is cached. -/
theorem sentUpdates_count (data drafts : List Obj) (i : Val) :
    ((sentUpdates (drafts.map (saveRequest data))).filter (Effect.isUpdateOf i)).length
      = (drafts.filter (fun change => decide (change.get "rowIndex" = i)
          && (data.find? (fun row =>
                decide (row.get "rowIndex" = change.get "rowIndex"))).isSome)).length := by
  induction drafts with
  | nil => simp [sentUpdates]
  | cons change rest ih =>
    rw [List.map_cons, sentUpdates_cons, List.filter_append, List.length_append, ih]
    cases hfind : data.find? (fun row => decide (row.get "rowIndex" = change.get "rowIndex")) with
    | none =>
      have hreq : saveRequest data change
          = .error ⟨"Row " ++ (change.get "rowIndex").toText ++ " not found"⟩ := by
        simp only [saveRequest, hfind]
      rw [hreq]
      simp [List.filter_cons, hfind]
    | some originalRow =>
      have hreq : saveRequest data change = .ok (Effect.updateSheetRow (change.get "rowIndex")
          ((originalRow.spread change).delete "id")) := by
        simp only [saveRequest, hfind]
      rw [hreq]
      by_cases hi : change.get "rowIndex" = i
      · subst hi
        simp only [List.filter_cons, hfind, Effect.isUpdateOf, decide_True, ↓reduceIte,
          List.filter_nil, List.length_cons, List.length_nil, Option.isSome_some, Bool.and_self]
        omega
      · simp only [List.filter_cons, hfind, Effect.isUpdateOf, hi, decide_False,
          Bool.false_eq_true, ↓reduceIte, List.filter_nil, List.length_nil, Bool.false_and,
          Nat.zero_add]

/-- C7, amended: `handleSaveAll` sends exactly one update for each draft entry whose row
is cached, in draft order, and none for the other entries; the update addresses the
entry's `rowIndex` and its `rowData` is the cached row with the fields of that one entry
written over it and `id` removed, so it carries every field of the entry other than
`id`. Entries with the same `rowIndex` are not merged: for every `rowIndex` the updates
sent are as many as the draft entries with it whose row is cached. When the entries of
`draftValues` have pairwise distinct `rowIndex`, at most one update is sent for each
`rowIndex`. -/
theorem handleSaveAll_update_per_draft (c : Component)
    (updateReply : Val → Obj → Except JSError Unit) (refreshReply : Except JSError Unit)
    (hwf : ∀ change ∈ c.draftValues, change.WF) :
    (handleSaveAll c updateReply refreshReply).2.filter Effect.isUpdate
        = c.draftValues.filterMap (fun change =>
            (c.data.find? (fun row =>
                decide (row.get "rowIndex" = change.get "rowIndex"))).map
              (fun originalRow => Effect.updateSheetRow (change.get "rowIndex")
                ((originalRow.spread change).delete "id")))
      ∧ (∀ i, ((handleSaveAll c updateReply refreshReply).2.filter
            (Effect.isUpdateOf i)).length
          = (c.draftValues.filter (fun change => decide (change.get "rowIndex" = i)
              && (c.data.find? (fun row =>
                    decide (row.get "rowIndex" = change.get "rowIndex"))).isSome)).length)
      ∧ (∀ change ∈ c.draftValues, ∀ originalRow : Obj, ∀ k, k ≠ "id" → change.has k = true →
          ((originalRow.spread change).delete "id").get k = change.get k)
      ∧ ((c.draftValues.map (fun change => change.get "rowIndex")).Nodup →
          ∀ i, ((handleSaveAll c updateReply refreshReply).2.filter
            (Effect.isUpdateOf i)).length ≤ 1) := by
  have hupd : (handleSaveAll c updateReply refreshReply).2.filter Effect.isUpdate
      = sentUpdates (c.draftValues.map (saveRequest c.data)) := by
    cases h : hasUnsavedChanges c with
    | false =>
      have hnil : c.draftValues = [] := by
        unfold hasUnsavedChanges at h
        cases hd : c.draftValues with
        | nil => rfl
        | cons _ _ => rw [hd] at h; simp at h
      simp [handleSaveAll, h, hnil, sentUpdates]
    | true =>
      obtain ⟨tail, heff, _, htail⟩ := handleSaveAll_effects c updateReply refreshReply h
      rw [heff, List.filter_append, htail, List.append_nil, filter_isUpdate_sentUpdates]
  have hcount : ∀ i, (handleSaveAll c updateReply refreshReply).2.filter (Effect.isUpdateOf i)
      = (sentUpdates (c.draftValues.map (saveRequest c.data))).filter (Effect.isUpdateOf i) := by
    intro i
    cases h : hasUnsavedChanges c with
    | false =>
      have hnil : c.draftValues = [] := by
        unfold hasUnsavedChanges at h
        cases hd : c.draftValues with
        | nil => rfl
        | cons _ _ => rw [hd] at h; simp at h
      simp [handleSaveAll, h, hnil, sentUpdates]
    | true =>
      obtain ⟨tail, heff, htail, _⟩ := handleSaveAll_effects c updateReply refreshReply h
      rw [heff, List.filter_append, htail i, List.append_nil]
  refine ⟨hupd.trans (sentUpdates_eq c.data c.draftValues), ?_, ?_, ?_⟩
  · intro i
    rw [hcount i]
    exact sentUpdates_count c.data c.draftValues i
  · intro change hchange originalRow k hk hhas
    rw [Obj.get_delete, if_neg hk, Obj.get_spread _ _ (hwf change hchange), if_pos hhas]
  · intro hdistinct i
    rw [hcount i]
    exact le_trans (sentUpdates_le_drafts c.data c.draftValues i)
      (filter_key_length_le_one _ _ i hdistinct)

/-- Witness for C7, amended: the two drafts for row `'2'` give two updates, each with its
own edit only; the three drafts for the rows `'1'`, `'2'` and the uncached `'9'` give
one update for `'1'`, one for `'2'` and none for `'9'`. -/
theorem handleSaveAll_update_per_draft_witness :
    (handleSaveAll twoDraftsComponent (fun _ _ => .ok ()) (.ok ())).2.filter Effect.isUpdate
        = [Effect.updateSheetRow (Val.str "2")
              [("rowIndex", Val.str "2"), ("A", Val.str "a"), ("B", Val.str "y")],
            Effect.updateSheetRow (Val.str "2")
              [("rowIndex", Val.str "2"), ("A", Val.str "x"), ("B", Val.str "b")]]
      ∧ (handleSaveAll distinctDraftsComponent (fun _ _ => .ok ()) (.ok ())).2.filter
          Effect.isUpdate
        = [Effect.updateSheetRow (Val.str "1")
              [("rowIndex", Val.str "1"), ("A", Val.str "a"), ("B", Val.str "q")],
            Effect.updateSheetRow (Val.str "2")
              [("rowIndex", Val.str "2"), ("A", Val.str "x"), ("B", Val.str "b")]]
      ∧ (∀ i, ((handleSaveAll distinctDraftsComponent (fun _ _ => .ok ()) (.ok ())).2.filter
          (Effect.isUpdateOf i)).length ≤ 1) :=
  ⟨(handleSaveAll_update_per_draft twoDraftsComponent (fun _ _ => .ok ()) (.ok ())
      (by decide)).1.trans (by decide),
    (handleSaveAll_update_per_draft distinctDraftsComponent (fun _ _ => .ok ()) (.ok ())
      (by decide)).1.trans (by decide),
    (handleSaveAll_update_per_draft distinctDraftsComponent (fun _ _ => .ok ()) (.ok ())
      (by decide)).2.2.2 (by decide)⟩

/-! ## Loading -/

theorem fieldNames_buildColumns (first : Obj) :
    (buildColumns first).filterMap Column.fieldName?
      = first.keys.filter (fun key => key != "rowIndex") := by
  unfold buildColumns
  rw [List.filterMap_append, List.filterMap_map]
  simp [Function.comp_def, Column.fieldName?]

/-- C2: after `processData` on a successful result with a non-empty row list, the field
names of the data columns are exactly the keys of the first row other than `rowIndex`,
in the first row's key order and each once, and `data` is the returned row list. -/
theorem processData_columns_of_first_row (c : Component) (first : Obj) (rest : List Obj)
    (hwf : first.WF) :
    (processData c ⟨some (first :: rest), none⟩).1.columns.filterMap Column.fieldName?
        = first.keys.filter (fun key => key != "rowIndex")
      ∧ (∀ k, k ∈ (processData c ⟨some (first :: rest), none⟩).1.columns.filterMap
            Column.fieldName? ↔ k ∈ first.keys ∧ k ≠ "rowIndex")
      ∧ ((processData c ⟨some (first :: rest), none⟩).1.columns.filterMap
            Column.fieldName?).Nodup
      ∧ (processData c ⟨some (first :: rest), none⟩).1.data = first :: rest := by
  have hcols : (processData c ⟨some (first :: rest), none⟩).1.columns = buildColumns first := rfl
  rw [hcols, fieldNames_buildColumns]
  refine ⟨rfl, ?_, ?_, rfl⟩
  · intro k
    simp [List.mem_filter]
  · exact List.Nodup.filter _ hwf

/-- Witness for C2: the rows of `sampleRows`, whose first row has the keys `rowIndex`,
`A`, `B`. -/
theorem processData_columns_of_first_row_witness :
    (processData Component.new ⟨some sampleRows, none⟩).1.columns.filterMap Column.fieldName?
      = ["A", "B"] := by
  have h := (processData_columns_of_first_row Component.new
    [("rowIndex", Val.str "1"), ("A", Val.str "p"), ("B", Val.str "q")]
    [[("rowIndex", Val.str "2"), ("A", Val.str "x"), ("B", Val.str "y")]] (by decide)).1
  exact h.trans (by decide)

/-- Counterexample to C3: two prior states that differ only in their columns, given the
same successful result with an empty row list, end with different columns. -/
theorem processData_empty_result_keeps_columns :
    { staleComponent with columns := Component.new.columns } = Component.new
      ∧ (processData Component.new ⟨some [], none⟩).1.columns
        ≠ (processData staleComponent ⟨some [], none⟩).1.columns := by
  constructor
  · rfl
  · decide

/-- C3, amended: a successful result replaces the cached rows; when its row list is not
empty the columns afterwards are computed from the first returned row alone, whatever
the prior state, and when it is empty `processData` leaves the columns as they were
(`handleLoadSheet` has cleared them before its read, so after its load of an empty row
list they are empty). -/
theorem processData_success (c₁ c₂ : Component) (rows : List Obj) :
    (processData c₁ ⟨some rows, none⟩).1.data = rows
      ∧ (processData c₁ ⟨some rows, none⟩).1.columns
          = (match rows with
            | first :: _ => buildColumns first
            | [] => c₁.columns)
      ∧ (∀ first rest, (processData c₁ ⟨some (first :: rest), none⟩).1.columns
          = (processData c₂ ⟨some (first :: rest), none⟩).1.columns)
      ∧ (processData c₁ ⟨some [], none⟩).1.columns = c₁.columns
      ∧ (handleLoadSheet c₁ (.ok (some []))).1.columns
          = (if c₁._spreadsheetUrl.truthy then [] else c₁.columns) := by
  refine ⟨?_, ?_, fun _ _ => rfl, rfl, ?_⟩
  · cases rows <;> rfl
  · cases rows <;> rfl
  · unfold handleLoadSheet
    cases h : c₁._spreadsheetUrl.truthy <;> simp [processData]

/-- C4: when `processData` is given no data and an error, afterwards `data` and `columns`
are empty, `error` holds the failure and `isLoading` is false, whatever the prior state;
`handleLoadSheet` hands `processData` exactly that when its read is rejected. -/
theorem processData_failure_clears (c : Component) (error : JSError) :
    (processData c ⟨none, some error⟩).1.data = []
      ∧ (processData c ⟨none, some error⟩).1.columns = []
      ∧ (processData c ⟨none, some error⟩).1.error = some error
      ∧ (processData c ⟨none, some error⟩).1.isLoading = false
      ∧ (handleLoadSheet c (.error error)).1
          = if c._spreadsheetUrl.truthy then
              (processData { c with data := [], columns := [], error := none, draftValues := [] }
                ⟨none, some error⟩).1
            else c := by
  refine ⟨rfl, rfl, rfl, rfl, ?_⟩
  unfold handleLoadSheet
  cases h : c._spreadsheetUrl.truthy <;> simp

/-- Counterexample to C5: with a spreadsheet reference set and the read rejected with
`Sheet not found`, `handleLoadSheet` dispatches no toast of severity `error`, not one. -/
theorem handleLoadSheet_failure_no_toast :
    sampleComponent._spreadsheetUrl.truthy = true
      ∧ ¬ ((handleLoadSheet sampleComponent (.error ⟨"Sheet not found"⟩)).2.filter
            Effect.isErrorToast).length = 1 := by
  constructor
  · decide
  · decide

/-- C5, amended: with a spreadsheet reference set, when the read issued by
`handleLoadSheet` is rejected, the effects are the read and one console log of the
failure; no toast is dispatched and the failure is kept in the field `error`. -/
theorem handleLoadSheet_failure_effects (c : Component) (error : JSError)
    (hurl : c._spreadsheetUrl.truthy = true) :
    (handleLoadSheet c (.error error)).2
        = [Effect.getSheetData c._spreadsheetUrl c._sheetName, Effect.consoleError error]
      ∧ (handleLoadSheet c (.error error)).2.filter Effect.isToast = []
      ∧ (handleLoadSheet c (.error error)).1.error = some error := by
  unfold handleLoadSheet
  simp [hurl, processData, Effect.isToast]

/-- Witness for C5, amended: the sample component, its read rejected. -/
theorem handleLoadSheet_failure_effects_witness :
    (handleLoadSheet sampleComponent (.error ⟨"Sheet not found"⟩)).2
        = [Effect.getSheetData (Val.str "https://docs.google.com/spreadsheets/d/abc")
            (Val.str "Sheet1"), Effect.consoleError ⟨"Sheet not found"⟩]
      ∧ (handleLoadSheet sampleComponent (.error ⟨"Sheet not found"⟩)).2.filter Effect.isToast = []
      ∧ (handleLoadSheet sampleComponent (.error ⟨"Sheet not found"⟩)).1.error
          = some ⟨"Sheet not found"⟩ :=
  handleLoadSheet_failure_effects sampleComponent ⟨"Sheet not found"⟩ (by decide)

/-! ## Discarding drafts -/

/-- Counterexample to C6: a confirmed discard with one draft pending issues a remote
call, the refresh of the wired row set. -/
theorem handleDiscardChanges_issues_refresh :
    hasUnsavedChanges sampleComponent = true
      ∧ ¬ ((handleDiscardChanges sampleComponent true).2.filter Effect.isRemoteCall = []) := by
  constructor
  · decide
  · decide

/-- C6, amended: with a draft pending and the dialog confirmed, `handleDiscardChanges`
empties `draftValues`, changes no other field and issues exactly one remote call, the
refresh of the wired row set (no read, update, add or delete); with no draft pending, or
the dialog declined, the state is unchanged and no remote call is issued. -/
theorem handleDiscardChanges_spec (c : Component) (confirmation : Bool) :
    if hasUnsavedChanges c = true ∧ confirmation = true then
      (handleDiscardChanges c confirmation).1.draftValues = []
        ∧ (handleDiscardChanges c confirmation).1 = { c with draftValues := [] }
        ∧ (handleDiscardChanges c confirmation).2.filter Effect.isRemoteCall
            = [Effect.refreshApex]
    else
      (handleDiscardChanges c confirmation).1 = c
        ∧ (handleDiscardChanges c confirmation).2.filter Effect.isRemoteCall = [] := by
  unfold handleDiscardChanges
  cases h : hasUnsavedChanges c <;> cases confirmation <;>
    simp [showToast, Effect.isRemoteCall]

/-! ## Sorting -/

theorem insertSorted_perm {α : Type} (cmp : α → α → Int) (x : α) (l : List α) :
    (insertSorted cmp x l).Perm (x :: l) := by
  induction l with
  | nil => exact List.Perm.refl _
  | cons y ys ih =>
    unfold insertSorted
    split
    · exact List.Perm.refl _
    · exact (List.Perm.cons y ih).trans (List.Perm.swap x y ys)

theorem sortWith_perm {α : Type} (cmp : α → α → Int) (l : List α) :
    (sortWith cmp l).Perm l := by
  induction l with
  | nil => exact List.Perm.refl _
  | cons x xs ih =>
    unfold sortWith
    exact (insertSorted_perm cmp x _).trans (List.Perm.cons x ih)

theorem insertSorted_pairwise {α : Type} (cmp : α → α → Int)
    (htotal : ∀ a b, cmp a b ≤ 0 ∨ cmp b a ≤ 0)
    (htrans : ∀ a b c, cmp a b ≤ 0 → cmp b c ≤ 0 → cmp a c ≤ 0)
    (x : α) (l : List α) (hl : l.Pairwise (fun a b => cmp a b ≤ 0)) :
    (insertSorted cmp x l).Pairwise (fun a b => cmp a b ≤ 0) := by
  induction l with
  | nil => simp [insertSorted]
  | cons y ys ih =>
    rw [List.pairwise_cons] at hl
    unfold insertSorted
    split
    · rename_i hxy
      refine List.pairwise_cons.2 ⟨?_, List.pairwise_cons.2 hl⟩
      intro b hb
      rcases List.mem_cons.1 hb with rfl | hb
      · exact hxy
      · exact htrans _ _ _ hxy (hl.1 b hb)
    · rename_i hxy
      have hyx : cmp y x ≤ 0 := (htotal x y).resolve_left hxy
      refine List.pairwise_cons.2 ⟨?_, ih hl.2⟩
      intro b hb
      rcases List.mem_cons.1 ((insertSorted_perm cmp x ys).subset hb) with rfl | hb
      · exact hyx
      · exact hl.1 b hb

theorem sortWith_pairwise {α : Type} (cmp : α → α → Int)
    (htotal : ∀ a b, cmp a b ≤ 0 ∨ cmp b a ≤ 0)
    (htrans : ∀ a b c, cmp a b ≤ 0 → cmp b c ≤ 0 → cmp a c ≤ 0) (l : List α) :
    (sortWith cmp l).Pairwise (fun a b => cmp a b ≤ 0) := by
  induction l with
  | nil => simp [sortWith]
  | cons x xs ih =>
    unfold sortWith
    exact insertSorted_pairwise cmp htotal htrans x _ ih

theorem ConsistentComparator.total {lc : String → String → Int} (h : ConsistentComparator lc)
    (a b : String) : lc a b ≤ 0 ∨ lc b a ≤ 0 := by
  by_cases hab : lc a b ≤ 0
  · exact Or.inl hab
  · exact Or.inr (le_of_lt ((h.flip b a).2 (not_le.1 hab)))

theorem compareRows_total {lc : String → String → Int} (h : ConsistentComparator lc)
    (sortedBy sortDirection : String) (a b : Obj) :
    compareRows lc sortedBy sortDirection a b ≤ 0
      ∨ compareRows lc sortedBy sortDirection b a ≤ 0 := by
  unfold compareRows
  by_cases hd : sortDirection = "asc"
  · simpa [hd] using h.total _ _
  · simpa [hd] using h.total _ _

theorem compareRows_trans {lc : String → String → Int} (h : ConsistentComparator lc)
    (sortedBy sortDirection : String) (a b c : Obj)
    (hab : compareRows lc sortedBy sortDirection a b ≤ 0)
    (hbc : compareRows lc sortedBy sortDirection b c ≤ 0) :
    compareRows lc sortedBy sortDirection a c ≤ 0 := by
  unfold compareRows at *
  by_cases hd : sortDirection = "asc"
  · simp only [hd, ↓reduceIte] at *
    exact h.trans _ _ _ hab hbc
  · simp only [hd, ↓reduceIte] at *
    exact h.trans _ _ _ hbc hab

theorem compareRows_flip {lc : String → String → Int} (h : ConsistentComparator lc)
    (sortedBy sortDirection : String) (a b : Obj) :
    compareRows lc sortedBy sortDirection a b < 0
      ↔ 0 < compareRows lc sortedBy sortDirection b a := by
  unfold compareRows
  by_cases hd : sortDirection = "asc"
  · simpa [hd] using h.flip _ _
  · simpa [hd] using h.flip _ _

/-- On a textual row the compared text is the value, or the empty string when the value
is missing or empty. -/
theorem sortText_eq_specSortKey (sortedBy : String) (row : Obj)
    (h : isTextual sortedBy row = true) : sortText sortedBy row = specSortKey sortedBy row := by
  unfold isTextual sortValue at h
  unfold sortText sortValue specSortKey
  cases hv : row.get sortedBy with
  | undefined => simp [Val.or, Val.truthy]
  | null => simp [Val.or, Val.truthy]
  | bool b => cases b <;> simp [hv, Val.or, Val.truthy] at h ⊢
  | num n =>
    by_cases hn : n = 0
    · simp [Val.or, Val.truthy, hn]
    · simp [hv, Val.or, Val.truthy, hn] at h
  | str t =>
    by_cases ht : t = ""
    · simp [Val.or, Val.truthy, ht]
    · simp [Val.or, Val.truthy, ht]
  | inherited key => simp [hv, Val.or, Val.truthy] at h

theorem pair_sublist_of_mem {α : Type} (l : List α) (r s : α) (hr : r ∈ l) (hs : s ∈ l)
    (hne : r ≠ s) : List.Sublist [r, s] l ∨ List.Sublist [s, r] l := by
  induction l with
  | nil => cases hr
  | cons x t ih =>
    rcases List.mem_cons.1 hr with hrx | hrt
    · rcases List.mem_cons.1 hs with hsx | hst
      · exact absurd (hrx.trans hsx.symm) hne
      · subst hrx
        exact Or.inl (List.Sublist.cons₂ _ (List.singleton_sublist.2 hst))
    · rcases List.mem_cons.1 hs with hsx | hst
      · subst hsx
        exact Or.inr (List.Sublist.cons₂ _ (List.singleton_sublist.2 hrt))
      · rcases ih hrt hst with h | h
        · exact Or.inl (List.Sublist.cons _ h)
        · exact Or.inr (List.Sublist.cons _ h)

/-- In a list sorted by a comparator, two members the comparator tells apart stand in
the comparator's order. -/
theorem sublist_pair_iff_of_sorted {α : Type} (cmp : α → α → Int)
    (hflip : ∀ a b, cmp a b < 0 ↔ 0 < cmp b a) (l : List α)
    (hsorted : l.Pairwise (fun a b => cmp a b ≤ 0)) (r s : α) (hr : r ∈ l) (hs : s ∈ l)
    (hne : cmp r s ≠ 0) : List.Sublist [r, s] l ↔ cmp r s < 0 := by
  constructor
  · intro hsub
    have hp := hsorted.sublist hsub
    have hle : cmp r s ≤ 0 := by simpa using hp
    exact lt_of_le_of_ne hle hne
  · intro hlt
    have hrs : r ≠ s := by
      intro heq
      subst heq
      have := (hflip r r).1 hlt
      omega
    rcases pair_sublist_of_mem l r s hr hs hrs with h | h
    · exact h
    · have hp := hsorted.sublist h
      have hle : cmp s r ≤ 0 := by simpa using hp
      have := (hflip r s).1 hlt
      omega

theorem compareUnits_refl (a : List Char) : compareUnits a a = 0 := by
  induction a with
  | nil => rfl
  | cons x xs ih => simp [compareUnits, ih]

theorem compareUnits_flip (a b : List Char) : compareUnits a b < 0 ↔ 0 < compareUnits b a := by
  induction a generalizing b with
  | nil => cases b <;> simp [compareUnits]
  | cons x xs ih =>
    cases b with
    | nil => simp [compareUnits]
    | cons y ys =>
      simp only [compareUnits]
      by_cases h1 : x.toNat < y.toNat
      · have h2 : ¬ y.toNat < x.toNat := by omega
        simp [h1, h2]
      · by_cases h2 : y.toNat < x.toNat
        · simp [h1, h2]
        · simp only [h1, h2, ↓reduceIte]
          exact ih ys

theorem compareUnits_trans (a b c : List Char) (hab : compareUnits a b ≤ 0)
    (hbc : compareUnits b c ≤ 0) : compareUnits a c ≤ 0 := by
  induction a generalizing b c with
  | nil => cases c <;> simp [compareUnits]
  | cons x xs ih =>
    cases b with
    | nil => simp [compareUnits] at hab
    | cons y ys =>
      cases c with
      | nil => simp [compareUnits] at hbc
      | cons z zs =>
        simp only [compareUnits] at hab hbc ⊢
        by_cases hxy : x.toNat < y.toNat
        · by_cases hyz : y.toNat < z.toNat
          · have : x.toNat < z.toNat := by omega
            simp [this]
          · by_cases hzy : z.toNat < y.toNat
            · simp [hyz, hzy] at hbc
            · have : x.toNat < z.toNat := by omega
              simp [this]
        · by_cases hyx : y.toNat < x.toNat
          · simp [hxy, hyx] at hab
          · simp only [hxy, hyx, ↓reduceIte] at hab
            by_cases hyz : y.toNat < z.toNat
            · have : x.toNat < z.toNat := by omega
              simp [this]
            · by_cases hzy : z.toNat < y.toNat
              · simp [hyz, hzy] at hbc
              · simp only [hyz, hzy, ↓reduceIte] at hbc
                have h1 : ¬ x.toNat < z.toNat := by omega
                have h2 : ¬ z.toNat < x.toNat := by omega
                simp only [h1, h2, ↓reduceIte]
                exact ih ys zs hab hbc

theorem ordinalCompare_consistent : ConsistentComparator ordinalCompare where
  refl a := compareUnits_refl a.data
  flip a b := compareUnits_flip a.data b.data
  trans a b c := compareUnits_trans a.data b.data c.data

theorem handleSort_of_textual (lc : String → String → Int) (c : Component)
    (sortedBy sortDirection : String) (htext : ∀ row ∈ c.data, isTextual sortedBy row = true) :
    handleSort lc c sortedBy sortDirection
      = .returned { c with data := sortWith (compareRows lc sortedBy sortDirection) c.data } [] := by
  unfold handleSort
  rw [if_pos (List.all_eq_true.2 htext)]

/-- Counterexample to C8: the rows `{ rowIndex: '1', name: '' }` and `{ rowIndex: '2' }`
have distinct values for `name`, the empty string and none, yet under every consistent
text comparison the first stands before the second after the ascending sort and still
after the descending sort that follows. -/
theorem handleSort_empty_and_missing_keep_order :
    emptyNameRow ∈ emptyNameComponent.data ∧ missingNameRow ∈ emptyNameComponent.data
      ∧ emptyNameRow.get "name" ≠ missingNameRow.get "name"
      ∧ ¬ ∃ lc, ConsistentComparator lc ∧ ∃ c₁ c₂,
          handleSort lc emptyNameComponent "name" "asc" = .returned c₁ []
          ∧ handleSort lc c₁ "name" "desc" = .returned c₂ []
          ∧ (Precedes c₁.data emptyNameRow missingNameRow
              ↔ Precedes c₂.data missingNameRow emptyNameRow) := by
  refine ⟨by decide, by decide, by decide, ?_⟩
  rintro ⟨lc, hlc, c₁, c₂, h₁, h₂, hiff⟩
  have hzero : lc "" "" = 0 := hlc.refl ""
  have hempty : sortText "name" emptyNameRow = "" := by decide
  have hmissing : sortText "name" missingNameRow = "" := by decide
  have hasc : compareRows lc "name" "asc" emptyNameRow missingNameRow = 0 := by
    simp [compareRows, hempty, hmissing, hzero]
  have hdesc : compareRows lc "name" "desc" emptyNameRow missingNameRow = 0 := by
    simp [compareRows, hempty, hmissing, hzero]
  rw [handleSort_of_textual lc emptyNameComponent "name" "asc" (by decide)] at h₁
  have hd₁ : c₁.data = [emptyNameRow, missingNameRow] := by
    injection h₁ with h₁ _
    rw [← h₁]
    show sortWith _ [emptyNameRow, missingNameRow] = _
    simp [sortWith, insertSorted, hasc]
  rw [handleSort_of_textual lc c₁ "name" "desc" (by rw [hd₁]; decide)] at h₂
  have hd₂ : c₂.data = [emptyNameRow, missingNameRow] := by
    injection h₂ with h₂ _
    rw [← h₂]
    show sortWith _ c₁.data = _
    rw [hd₁]
    simp [sortWith, insertSorted, hdesc]
  rw [hd₁, hd₂] at hiff
  have hyes : Precedes [emptyNameRow, missingNameRow] emptyNameRow missingNameRow := by decide
  have hno : ¬ Precedes [emptyNameRow, missingNameRow] missingNameRow emptyNameRow := by decide
  exact hno (hiff.1 hyes)

theorem sortWith_textual (cmp : Obj → Obj → Int) (sortedBy : String) (rows : List Obj)
    (htext : ∀ row ∈ rows, isTextual sortedBy row = true) :
    ∀ row ∈ sortWith cmp rows, isTextual sortedBy row = true :=
  fun row hrow => htext row ((sortWith_perm cmp rows).subset hrow)

/-- C8, amended: for cached rows and a field `f` whose value in every row, as the
property read `a[f]` yields it, is text, empty or undefined (so not a member the row
inherits), and two rows `r` and `s` of the list whose texts for `f` (the value, or the
empty string when it is missing or empty) the text comparison tells apart, `r` stands
before `s` after `handleSort` with `asc` if and only if `s` stands before `r` after the
`handleSort` with `desc` that follows; both calls return and issue no effect. -/
theorem handleSort_asc_then_desc_reverses (lc : String → String → Int)
    (hlc : ConsistentComparator lc) (c : Component) (f : String)
    (htext : ∀ row ∈ c.data, isTextual f row = true) (r s : Obj)
    (hr : r ∈ c.data) (hs : s ∈ c.data)
    (hne : lc (specSortKey f r) (specSortKey f s) ≠ 0) :
    ∃ c₁ c₂, handleSort lc c f "asc" = .returned c₁ []
      ∧ handleSort lc c₁ f "desc" = .returned c₂ []
      ∧ (Precedes c₁.data r s ↔ Precedes c₂.data s r) := by
  have htext₁ := sortWith_textual (compareRows lc f "asc") f c.data htext
  refine ⟨{ c with data := sortWith (compareRows lc f "asc") c.data },
    { c with
      data := (sortWith (compareRows lc f "desc") (sortWith (compareRows lc f "asc") c.data)) },
    handleSort_of_textual lc c f "asc" htext, ?_, ?_⟩
  · exact handleSort_of_textual lc _ f "desc" htext₁
  · have hkr := sortText_eq_specSortKey f r (htext r hr)
    have hks := sortText_eq_specSortKey f s (htext s hs)
    have hasc : compareRows lc f "asc" r s = lc (specSortKey f r) (specSortKey f s) := by
      simp [compareRows, hkr, hks]
    have hdesc : compareRows lc f "desc" s r = lc (specSortKey f r) (specSortKey f s) := by
      simp [compareRows, hkr, hks]
    have hr₁ : r ∈ sortWith (compareRows lc f "asc") c.data :=
      (sortWith_perm _ _).symm.subset hr
    have hs₁ : s ∈ sortWith (compareRows lc f "asc") c.data :=
      (sortWith_perm _ _).symm.subset hs
    have h₁ := sublist_pair_iff_of_sorted (compareRows lc f "asc")
      (compareRows_flip hlc f "asc") _
      (sortWith_pairwise _ (compareRows_total hlc f "asc") (compareRows_trans hlc f "asc")
        c.data) r s hr₁ hs₁ (by rw [hasc]; exact hne)
    have h₂ := sublist_pair_iff_of_sorted (compareRows lc f "desc")
      (compareRows_flip hlc f "desc") _
      (sortWith_pairwise _ (compareRows_total hlc f "desc") (compareRows_trans hlc f "desc")
        (sortWith (compareRows lc f "asc") c.data)) s r
      ((sortWith_perm _ _).symm.subset hs₁) ((sortWith_perm _ _).symm.subset hr₁)
      (by rw [hdesc]; exact hne)
    show List.Sublist [r, s] _ ↔ List.Sublist [s, r] _
    rw [h₁, h₂, hasc, hdesc]

/-- Witness for C8, amended: the sample rows sorted by `A`, their values `p` and `x`,
under the ordinal comparison. -/
theorem handleSort_asc_then_desc_reverses_witness :
    ∃ c₁ c₂, handleSort ordinalCompare sampleComponent "A" "asc" = .returned c₁ []
      ∧ handleSort ordinalCompare c₁ "A" "desc" = .returned c₂ []
      ∧ (Precedes c₁.data [("rowIndex", Val.str "1"), ("A", Val.str "p"), ("B", Val.str "q")]
            [("rowIndex", Val.str "2"), ("A", Val.str "x"), ("B", Val.str "y")]
          ↔ Precedes c₂.data [("rowIndex", Val.str "2"), ("A", Val.str "x"), ("B", Val.str "y")]
            [("rowIndex", Val.str "1"), ("A", Val.str "p"), ("B", Val.str "q")]) :=
  handleSort_asc_then_desc_reverses ordinalCompare ordinalCompare_consistent sampleComponent "A"
    (by decide) _ _ (by decide) (by decide) (by decide)

/-- Counterexample to C9: the sample rows hold text only and none has a `constructor`
cell, yet sorting them by `constructor` does not return: the operand `a[sortedBy] || ''`
is the inherited function `Object`, not the empty string, and the comparison throws a
`TypeError` under every text comparison. -/
theorem handleSort_inherited_field_throws :
    (∀ row ∈ sampleComponent.data, ∀ kv ∈ row, kv.2.isText = true)
      ∧ (∀ row ∈ sampleComponent.data, Obj.has row "constructor" = false)
      ∧ (∀ row ∈ sampleComponent.data,
          sortValue "constructor" row = Val.inherited "constructor")
      ∧ handleSort ordinalCompare sampleComponent "constructor" "asc" = SortOutcome.typeError
      ∧ ¬ ∃ lc c', handleSort lc sampleComponent "constructor" "asc"
            = SortOutcome.returned c' [] := by
  refine ⟨by decide, by decide, by decide, by decide, ?_⟩
  rintro ⟨lc, c', h⟩
  have hthrows : handleSort lc sampleComponent "constructor" "asc" = SortOutcome.typeError := by
    unfold handleSort
    rw [if_neg (by decide), if_neg (by decide), if_neg (by decide)]
  rw [hthrows] at h
  cases h

/-- C9, amended: for cached rows and a field whose value in every row, as the property
read `a[sortedBy]` yields it, is text, empty or undefined (so not a member the row
inherits), `handleSort` issues no effect, so no remote call, and replaces `data` with a
permutation of the cached rows ordered by the text comparison of each row's value for
the field, a missing or empty value counting as the empty string: non-decreasing for
`asc`, non-increasing for any other direction; no other field changes, in particular
not `columns` and `draftValues`. -/
theorem handleSort_sorted_permutation (lc : String → String → Int)
    (hlc : ConsistentComparator lc) (c : Component) (sortedBy sortDirection : String)
    (htext : ∀ row ∈ c.data, isTextual sortedBy row = true) :
    ∃ c', handleSort lc c sortedBy sortDirection = .returned c' []
      ∧ c'.data.Perm c.data
      ∧ (if sortDirection = "asc" then
          c'.data.Pairwise (fun a b =>
            lc (specSortKey sortedBy a) (specSortKey sortedBy b) ≤ 0)
        else
          c'.data.Pairwise (fun a b =>
            lc (specSortKey sortedBy b) (specSortKey sortedBy a) ≤ 0))
      ∧ c' = { c with data := c'.data }
      ∧ c'.columns = c.columns ∧ c'.draftValues = c.draftValues := by
  refine ⟨{ c with data := sortWith (compareRows lc sortedBy sortDirection) c.data },
    handleSort_of_textual lc c sortedBy sortDirection htext, sortWith_perm _ _, ?_,
    rfl, rfl, rfl⟩
  have hsorted := sortWith_pairwise _ (compareRows_total hlc sortedBy sortDirection)
    (compareRows_trans hlc sortedBy sortDirection) c.data
  have htext' := sortWith_textual (compareRows lc sortedBy sortDirection) sortedBy c.data htext
  by_cases hd : sortDirection = "asc"
  · rw [if_pos hd]
    refine List.Pairwise.imp_of_mem ?_ hsorted
    intro a b ha hb hab
    simpa [compareRows, hd, sortText_eq_specSortKey sortedBy a (htext' a ha),
      sortText_eq_specSortKey sortedBy b (htext' b hb)] using hab
  · rw [if_neg hd]
    refine List.Pairwise.imp_of_mem ?_ hsorted
    intro a b ha hb hab
    simpa [compareRows, hd, sortText_eq_specSortKey sortedBy a (htext' a ha),
      sortText_eq_specSortKey sortedBy b (htext' b hb)] using hab

/-- Witness for C9, amended: the rows with the `A` values `p`, none and `x` sorted by
`A`, descending, under the ordinal comparison: the result is `x`, `p`, none, a
reordering of the cached list. -/
theorem handleSort_sorted_permutation_witness :
    handleSort ordinalCompare mixedComponent "A" "desc"
        = SortOutcome.returned
            { mixedComponent with
              data := [[("rowIndex", Val.str "3"), ("A", Val.str "x")],
                       [("rowIndex", Val.str "1"), ("A", Val.str "p")],
                       [("rowIndex", Val.str "2")]] } []
      ∧ handleSort ordinalCompare mixedComponent "A" "asc"
        = SortOutcome.returned
            { mixedComponent with
              data := [[("rowIndex", Val.str "2")],
                       [("rowIndex", Val.str "1"), ("A", Val.str "p")],
                       [("rowIndex", Val.str "3"), ("A", Val.str "x")]] } []
      ∧ ∃ c', handleSort ordinalCompare mixedComponent "A" "desc" = .returned c' []
        ∧ c'.data.Perm mixedComponent.data
        ∧ c'.data.Pairwise (fun a b =>
            ordinalCompare (specSortKey "A" b) (specSortKey "A" a) ≤ 0)
        ∧ c'.columns = mixedComponent.columns
        ∧ c'.draftValues = mixedComponent.draftValues := by
  refine ⟨by decide, by decide, ?_⟩
  obtain ⟨c', h, hperm, hsorted, _, hcols, hdrafts⟩ :=
    handleSort_sorted_permutation ordinalCompare ordinalCompare_consistent mixedComponent
      "A" "desc" (by decide)
  exact ⟨c', h, hperm, by simpa using hsorted, hcols, hdrafts⟩

/-! ## The sheet name -/

/-- C10, the code at the failing input: a new component with no default sheet name
configured has the sheet name `''` once `connectedCallback` has run, and with a default
spreadsheet reference configured the read it issues carries the sheet name `''`; the
field initialiser and the setter, for an empty or missing value, give `'Sheet1'`. -/
theorem connectedCallback_resets_sheetName :
    sheetName Component.new = Val.str "Sheet1"
      ∧ sheetName (connectedCallback Component.new (.ok none)).1 = Val.str ""
      ∧ (connectedCallback
            { Component.new with
              defaultSpreadsheetUrl := Val.str "https://docs.google.com/spreadsheets/d/abc" }
            (.ok (some []))).2
          = [Effect.getSheetData (Val.str "https://docs.google.com/spreadsheets/d/abc")
              (Val.str "")]
      ∧ sheetName (setSheetName Component.new (Val.str "")) = Val.str "Sheet1"
      ∧ sheetName (setSheetName Component.new Val.undefined) = Val.str "Sheet1" := by
  refine ⟨by decide, by decide, by decide, by decide, by decide⟩

end GoogleSheetsList
